import Mathlib

/-!
# Verification of the ui-automation-recon-toolkit core

Shallow embedding of the DOM recon & locator synthesis engine:
the page-model builder (`src/model/buildPageModel.ts`), the scanner's
pure classification and aggregation logic (`scanPage.ts`, newest
revision), and the recon report data model (`reporting/types.ts`).

Strings are modelled as Lean `String`s (lists of characters); JavaScript
string truthiness, `trim`, global-regex replacement and `slice` are
embedded as explicit list operations.  Fallible code (`new URL` throwing)
is modelled with `Except`.
-/

namespace UIRecon

/-- JavaScript truthiness of a `string | undefined` value:
`undefined` and the empty string are falsy, all other strings truthy. -/
def jsTruthy : Option String → Bool
  | none => false
  | some s => !(s == "")

/-- JavaScript `a || b` on `string | undefined` values: returns `a`
when it is truthy, otherwise `b`. -/
def jsOrS (a b : Option String) : Option String :=
  if jsTruthy a then a else b

/-- Characters matched by the JavaScript regex class `\s`
(ASCII whitespace; the embedding uses this representative set). -/
def isJsWs (c : Char) : Bool :=
  c == ' ' || c == '\t' || c == '\n' || c == '\r' || c == '\x0b' || c == '\x0c'

/-- JavaScript `String.prototype.trim`: drop leading and trailing
whitespace characters. -/
def trimChars (l : List Char) : List Char :=
  ((l.dropWhile isJsWs).reverse.dropWhile isJsWs).reverse

/-- JavaScript `s.replace(/\s+/g, " ")`: every maximal run of whitespace
characters is replaced by a single space.  The boolean flag records
whether the previous character was part of a whitespace run. -/
def collapseWsAux : Bool → List Char → List Char
  | _, [] => []
  | prev, c :: cs =>
    if isJsWs c then
      if prev then collapseWsAux true cs else ' ' :: collapseWsAux true cs
    else c :: collapseWsAux false cs

/-- `normalizeWhitespace` from `buildPageModel.ts` (also the
trim-and-collapse step of the scanner's `getText` and
`findAssociatedLabelText`): `s.trim().replace(/\s+/g, " ")`. -/
def normalizeWhitespace (s : String) : String :=
  ⟨collapseWsAux false (trimChars s.data)⟩

/-- JavaScript `s.slice(0, n)` (for nonnegative `n`). -/
def sliceN (n : Nat) (s : String) : String :=
  ⟨s.data.take n⟩

/-- `safeName` from `buildPageModel.ts`: `undefined`/empty input yields
`undefined`; otherwise the whitespace-normalized value, `undefined` when
that is empty, else its first 80 characters. -/
def safeName : Option String → Option String
  | none => none
  | some str =>
    if str = "" then none
    else
      let v := normalizeWhitespace str
      if v.length = 0 then none else some (sliceN 80 v)

/-- `ReconElementType` from `reporting/types.ts`. -/
inductive ReconElementType
  | button
  | link
  | input
  | select
  | textarea
  | other
deriving DecidableEq

/-- The six semantic types in the order the scanner zero-fills them. -/
def allTypes : List ReconElementType :=
  [.button, .link, .input, .select, .textarea, .other]

/-- `ReconElement` from `reporting/types.ts` (newest revision, with
`typeAttr` and `value`).  Optional TS fields are `Option`s. -/
structure ReconElement where
  type : ReconElementType
  tagName : String
  role : Option String := none
  accessibleName : Option String := none
  labelText : Option String := none
  testId : Option String := none
  text : Option String := none
  id : Option String := none
  name : Option String := none
  href : Option String := none
  placeholder : Option String := none
  ariaLabel : Option String := none
  disabled : Option Bool := none
  ariaDisabled : Option Bool := none
  typeAttr : Option String := none
  value : Option String := none
  css : Option String := none
  xpath : Option String := none
deriving DecidableEq

/-- `ReconReport` from `reporting/types.ts`.  The `counts` record is a
JavaScript object whose keys may be missing, modelled as an
`Option Nat`-valued function. -/
structure ReconReport where
  url : String
  scannedAt : String
  counts : ReconElementType → Option Nat
  elements : List ReconElement

/-- `ElementKind` from `model/pageModel.ts`. -/
inductive ElementKind
  | button
  | link
  | textbox
  | checkbox
  | radio
  | select
  | textarea
  | other
deriving DecidableEq

/-- The strategy tag of a locator hint. -/
inductive HintStrategy
  | testId
  | role
  | label
  | placeholder
  | css
  | xpath
deriving DecidableEq

/-- A locator hint as the runtime object built by `buildLocators`:
a strategy tag plus possibly-undefined `value`, `role` and `name`
properties (the TS variant type assigns each strategy its meaningful
fields; the builder can momentarily store `undefined` in `value`). -/
structure LocatorHint where
  strategy : HintStrategy
  value : Option String := none
  role : Option String := none
  name : Option String := none
deriving DecidableEq

/-- The `flags` object `buildPageModel` attaches to every element. -/
structure ElementFlags where
  disabled : Option Bool := none
  ariaDisabled : Option Bool := none
deriving DecidableEq

/-- `ElementModel` from `model/pageModel.ts`. -/
structure ElementModel where
  id : String
  kind : ElementKind
  name : Option String := none
  tagName : Option String := none
  role : Option String := none
  href : Option String := none
  locators : List LocatorHint
  flags : ElementFlags
deriving DecidableEq

/-- `PageModel` from `model/pageModel.ts`. -/
structure PageModel where
  url : String
  domain : String
  scannedAt : String
  title : Option String := none
  elements : List ElementModel
deriving DecidableEq

/-- `kindFromRecon` from `buildPageModel.ts`. -/
def kindFromRecon (el : ReconElement) : ElementKind :=
  match el.type with
  | .button => .button
  | .link => .link
  | .input => .textbox
  | .select => .select
  | .textarea => .textarea
  | .other => .other

/-- `buildName` from `buildPageModel.ts`: the `||` chain over
`safeName` of accessibleName, labelText, ariaLabel, name, id, text. -/
def buildName (el : ReconElement) : Option String :=
  jsOrS (safeName el.accessibleName)
    (jsOrS (safeName el.labelText)
      (jsOrS (safeName el.ariaLabel)
        (jsOrS (safeName el.name)
          (jsOrS (safeName el.id) (safeName el.text)))))

/-- `buildLocators` from `buildPageModel.ts`: conditional pushes in
preference order, then the empty-value filter (`role` hints are kept
when their role is truthy, value-carrying hints when their value is). -/
def buildLocators (el : ReconElement) : List LocatorHint :=
  let pushed : List LocatorHint :=
    (if jsTruthy el.testId then
      [{ strategy := .testId, value := el.testId }] else []) ++
    (if jsTruthy el.role then
      [{ strategy := .role, role := el.role, name := safeName el.accessibleName }] else []) ++
    (if jsTruthy el.labelText then
      [{ strategy := .label, value := safeName el.labelText }] else []) ++
    (if jsTruthy el.placeholder then
      [{ strategy := .placeholder, value := el.placeholder }] else []) ++
    (if jsTruthy el.css then
      [{ strategy := .css, value := el.css }] else []) ++
    (if jsTruthy el.xpath then
      [{ strategy := .xpath, value := el.xpath }] else [])
  pushed.filter fun l =>
    match l.strategy with
    | .role => jsTruthy l.role
    | _ => jsTruthy l.value

/-- The decimal digit character for `n < 10`, as JavaScript number
formatting produces it. -/
def decDigit (n : Nat) : Char :=
  Char.ofNat (48 + n)

/-- Fueled decimal conversion (most significant digit first); the fuel
is only a structural-recursion device. -/
def decCharsAux : Nat → Nat → List Char
  | 0, _ => []
  | fuel + 1, n =>
    if n < 10 then [decDigit n]
    else decCharsAux fuel (n / 10) ++ [decDigit (n % 10)]

/-- The decimal digit string of a natural number, embedding JavaScript
template interpolation `${index}` of a nonnegative integer. -/
def decChars (n : Nat) : List Char :=
  decCharsAux (n + 1) n

/-- `${n}`: decimal string of a natural number. -/
def natToStr (n : Nat) : String :=
  ⟨decChars n⟩

/-- Lower-case ASCII letter or digit: the characters the slug regex
`[^a-z0-9]+` keeps. -/
def isSlugChar (c : Char) : Bool :=
  ('a' ≤ c && c ≤ 'z') || ('0' ≤ c && c ≤ '9')

/-- JavaScript `s.replace(/[^a-z0-9]+/g, "-")`: every maximal run of
non-(lower-alphanumeric) characters becomes a single hyphen. -/
def dashifyAux : Bool → List Char → List Char
  | _, [] => []
  | prev, c :: cs =>
    if isSlugChar c then c :: dashifyAux false cs
    else if prev then dashifyAux true cs
    else '-' :: dashifyAux true cs

/-- JavaScript `s.replace(/^-+|-+$/g, "")`: drop leading and trailing
hyphen runs. -/
def trimDashes (l : List Char) : List Char :=
  ((l.dropWhile (fun c => c == '-')).reverse.dropWhile (fun c => c == '-')).reverse

/-- The slug pipeline of `stableElementId`:
`normalizeWhitespace(String(base)).toLowerCase()
 .replace(/[^a-z0-9]+/g, "-").replace(/^-+|-+$/g, "").slice(0, 50)`. -/
def slugOf (base : String) : String :=
  ⟨(trimDashes (dashifyAux false ((normalizeWhitespace base).data.map Char.toLower))).take 50⟩

/-- The string printed for a `ReconElementType` (the TS union member). -/
def typeStr : ReconElementType → String
  | .button => "button"
  | .link => "link"
  | .input => "input"
  | .select => "select"
  | .textarea => "textarea"
  | .other => "other"

/-- The `||`-chain choosing the slug base in `stableElementId`:
`testId || id || name || ariaLabel || text || tagName || element-index`. -/
def stableBase (el : ReconElement) (index : Nat) : String :=
  (jsOrS el.testId
    (jsOrS el.id
      (jsOrS el.name
        (jsOrS el.ariaLabel
          (jsOrS el.text
            (jsOrS (some el.tagName)
              (some ("element-" ++ natToStr index)))))))).getD ""

/-- `stableElementId` from `buildPageModel.ts`:
`` `${el.type}-${slug || "unnamed"}-${index}` ``. -/
def stableElementId (el : ReconElement) (index : Nat) : String :=
  let slug := slugOf (stableBase el index)
  typeStr el.type ++ "-" ++ (if slug = "" then "unnamed" else slug) ++ "-" ++ natToStr index

/-- Splits a character list at the first occurrence of `"://"`,
returning the parts before and after it. -/
def splitSchemeRest : List Char → Option (List Char × List Char)
  | [] => none
  | ':' :: '/' :: '/' :: rest => some ([], rest)
  | c :: rest => (splitSchemeRest rest).map (fun p => (c :: p.1, p.2))

/-- Modelled from the spec: the WHATWG `new URL(url)` hostname parsing
used by `domainFromUrl` is platform code, not part of this repository.
The spec requires only that a malformed URL is rejected with an error
and that a well-formed URL yields its hostname (e.g.
`https://www.example.com/path` has hostname `www.example.com`).  We
model a `scheme://host[:port][/|?|#...]` parser: absent `"://"` or an
empty scheme or host is malformed; the host is everything after
`"://"` up to the first `/`, `?` or `#`, with any `:port` removed,
lower-cased. -/
def urlHostname (url : String) : Option String :=
  match splitSchemeRest url.data with
  | none => none
  | some (scheme, rest) =>
    if scheme.isEmpty then none
    else
      let hostPort := rest.takeWhile fun c => !(c == '/' || c == '?' || c == '#')
      let host := hostPort.takeWhile fun c => !(c == ':')
      if host.isEmpty then none else some ⟨host.map Char.toLower⟩

/-- The regex replacement `hostname.replace(/^www\./, "")`: one literal
leading `www.` is removed. -/
def stripWww (h : String) : String :=
  match h.data with
  | 'w' :: 'w' :: 'w' :: '.' :: rest => ⟨rest⟩
  | _ => h

/-- `domainFromUrl` from `buildPageModel.ts`: `new URL(url).hostname`
(throwing on a malformed URL, modelled by `Except.error`) with a
leading `www.` stripped. -/
def domainFromUrl (url : String) : Except String String :=
  match urlHostname url with
  | none => Except.error ("Invalid URL: " ++ url)
  | some h => Except.ok (stripWww h)

/-- `Array.prototype.map` with element index, starting at `k`. -/
def mapWithIndex (f : Nat → α → β) : Nat → List α → List β
  | _, [] => []
  | k, a :: as => f k a :: mapWithIndex f (k + 1) as

/-- The per-element body of the `report.elements.map` call in
`buildPageModel`. -/
def buildElement (index : Nat) (el : ReconElement) : ElementModel :=
  { id := stableElementId el index
    kind := kindFromRecon el
    name := buildName el
    tagName := some el.tagName
    role := el.role
    href := if el.type = .link then el.href else none
    locators := buildLocators el
    flags := { disabled := el.disabled, ariaDisabled := el.ariaDisabled } }

/-- `buildPageModel` from `buildPageModel.ts`.  The `new URL` throw is
the only failure path, modelled by `Except.error`; on success the model
is assembled from the per-element transforms. -/
def buildPageModel (report : ReconReport) (title : Option String) : Except String PageModel :=
  match domainFromUrl report.url with
  | Except.error e => Except.error e
  | Except.ok domain =>
    Except.ok
      { url := report.url
        domain := domain
        scannedAt := report.scannedAt
        title := title
        elements := mapWithIndex buildElement 0 report.elements }

/-- `RawEl` from `scanPage.ts` (newest revision): the raw payload built
inside the page context. -/
structure RawEl where
  tag : String
  role : Option String := none
  typeAttr : Option String := none
  value : Option String := none
  text : Option String := none
  id : Option String := none
  name : Option String := none
  href : Option String := none
  placeholder : Option String := none
  ariaLabel : Option String := none
  ariaDisabled : Option Bool := none
  disabled : Option Bool := none
  testId : Option String := none
  labelText : Option String := none
  accessibleName : Option String := none
  css : Option String := none
  xpath : Option String := none
deriving DecidableEq

/-- The `INTERACTIVE_ROLES` set from `scanPage.ts`. -/
def INTERACTIVE_ROLES : List String :=
  ["button", "link", "textbox", "checkbox", "radio", "switch", "combobox",
   "listbox", "option", "menuitem", "tab", "slider", "spinbutton"]

/-- JavaScript `s.toLowerCase()` (ASCII lowering). -/
def strLower (s : String) : String :=
  ⟨s.data.map Char.toLower⟩

/-- `normalizeType` from `scanPage.ts` (newest revision): an interactive
ARIA role takes precedence; otherwise tag rules apply, with an `input`
whose type attribute is button/submit/reset reclassified as button.
(A present-but-falsy role, i.e. `""`, falls through to the tag rules,
which coincides with the membership test since `""` is not a role.) -/
def normalizeType (raw : RawEl) : ReconElementType :=
  let tag := strLower raw.tag
  let inputType := raw.typeAttr.map strLower
  let tagRules : ReconElementType :=
    if tag = "button" then .button
    else if tag = "a" && jsTruthy raw.href then .link
    else if tag = "select" then .select
    else if tag = "textarea" then .textarea
    else if tag = "input" then
      if inputType = some "button" || inputType = some "submit" || inputType = some "reset" then
        .button
      else .input
    else .other
  match raw.role with
  | none => tagRules
  | some r0 =>
    let r := strLower r0
    if r ∈ INTERACTIVE_ROLES then
      if r = "textbox" then .input
      else if r = "combobox" || r = "listbox" then .select
      else if r = "link" then .link
      else if r = "button" then .button
      else .other
    else tagRules

/-- A DOM element as the scanner's page-context closures observe it:
tag name, attribute map, text content, and the associated-label lookup
(`findAssociatedLabelText` queries the surrounding document, which the
embedding carries as a per-node field). -/
structure DomNode where
  tag : String
  attrs : List (String × String)
  assocLabel : Option String := none
  textContent : String := ""

/-- `getAttribute`: first binding of the attribute name, `null` when
absent. -/
def getAttr (n : DomNode) (a : String) : Option String :=
  (n.attrs.find? fun p => p.1 = a).map (·.2)

/-- `getText` from `scanPage.ts`: trimmed, whitespace-collapsed text
content, truncated to 200 characters, `undefined` when empty. -/
def getText (n : DomNode) : Option String :=
  let txt := normalizeWhitespace n.textContent
  if txt = "" then none else some (sliceN 200 txt)

/-- `findAssociatedLabelText` from `scanPage.ts`: label text found via a
`label[for=id]` query or an enclosing `label`, already normalized and
truncated by that helper.  The document query itself is carried by the
node's `assocLabel` field. -/
def findAssociatedLabelText (n : DomNode) : Option String :=
  n.assocLabel

/-- `accessibleName` from `scanPage.ts` (newest revision): `aria-label`,
else associated label text, else — for input elements whose type
attribute (defaulted to `"text"`) is submit/button/reset — the `value`
attribute, else `alt`, else normalized visible text. -/
def accessibleName (n : DomNode) : Option String :=
  let aria := getAttr n "aria-label"
  if jsTruthy aria then aria
  else
    let label := findAssociatedLabelText n
    if jsTruthy label then label
    else
      let tag := strLower n.tag
      let fromValue : Option String :=
        if tag = "input" then
          let t := strLower ((getAttr n "type").getD "text")
          if t = "submit" || t = "button" || t = "reset" then
            let v := getAttr n "value"
            if jsTruthy v then v else none
          else none
        else none
      match fromValue with
      | some v => some v
      | none =>
        let alt := getAttr n "alt"
        if jsTruthy alt then alt else getText n

/-- The `RawEl[] → ReconElement[]` conversion in `scanUrl` (newest
revision, lines 448–465): note that the object literal sets neither
`disabled` nor `ariaDisabled`, so both are `undefined` on every
converted element. -/
def rawToRecon (r : RawEl) : ReconElement :=
  { type := normalizeType r
    tagName := r.tag
    typeAttr := r.typeAttr
    value := r.value
    text := r.text
    id := r.id
    name := r.name
    href := if r.tag = "a" then r.href else none
    ariaLabel := r.ariaLabel
    placeholder := r.placeholder
    css := r.css
    xpath := r.xpath
    role := r.role
    testId := r.testId
    accessibleName := r.accessibleName
    labelText := r.labelText
    disabled := none
    ariaDisabled := none }

/-- One step of the `elements.reduce` aggregation in `scanUrl`:
`acc[e.type] = (acc[e.type] ?? 0) + 1`. -/
def bumpCount (acc : ReconElementType → Option Nat) (t : ReconElementType) :
    ReconElementType → Option Nat :=
  fun u => if u = t then some ((acc t).getD 0 + 1) else acc u

/-- The `reduce` pass of `scanUrl`: per-type tallies over the element
list, starting from the empty object (every key absent). -/
def rawCounts (l : List ReconElement) : ReconElementType → Option Nat :=
  l.foldl (fun acc e => bumpCount acc e.type) (fun _ => none)

/-- The `counts` record `scanUrl` returns: the `reduce` tallies with the
zero-fill loop `for (t of allTypes) counts[t] = counts[t] ?? 0` applied
(every semantic type is one of the six filled keys). -/
def scanCounts (l : List ReconElement) : ReconElementType → Option Nat :=
  fun t => some ((rawCounts l t).getD 0)

/-- The number of elements of a given semantic type. -/
def countType (l : List ReconElement) (t : ReconElementType) : Nat :=
  (l.filter fun e => e.type = t).length

/-- Spec-side name derivation, following §4.6 of the spec: the first
candidate of accessible name, label text, aria-label, name attribute,
id attribute, visible text whose truncated-and-normalized value is
present. -/
def specName (el : ReconElement) : Option String :=
  ([el.accessibleName, el.labelText, el.ariaLabel, el.name, el.id, el.text].filterMap
    safeName).head?

/-- First truthy entry of a list of possibly-absent strings (the
"first non-empty wins" rule of the spec). -/
def firstNonempty (l : List (Option String)) : Option String :=
  (l.find? jsTruthy).join

/-- Spec-side accessible-name derivation, following §4.3 of the spec:
first non-empty of aria-label, associated label text, the value
attribute for submit/button/reset inputs, alt, normalized visible
text. -/
def specAccName (n : DomNode) : Option String :=
  let valueForButton : Option String :=
    if strLower n.tag = "input" &&
        (let t := strLower ((getAttr n "type").getD "text")
         t = "submit" || t = "button" || t = "reset") then
      getAttr n "value"
    else none
  firstNonempty
    [getAttr n "aria-label", findAssociatedLabelText n, valueForButton,
     getAttr n "alt", getText n]

/-- Spec-side slug base for the stable identifier, following the claim:
the first available (truthy) of test-id, DOM id, name attribute,
aria-label, visible text, tag name. -/
def claimSlugBase (el : ReconElement) : Option String :=
  firstNonempty [el.testId, el.id, el.name, el.ariaLabel, el.text, some el.tagName]

/-- The stable identifier exactly as claim C5 words it: slug from the
first available of the six signals (empty when none is available),
`"unnamed"` substituted for an empty slug. -/
def claimElementId (el : ReconElement) (index : Nat) : String :=
  let slug := slugOf ((claimSlugBase el).getD "")
  typeStr el.type ++ "-" ++ (if slug = "" then "unnamed" else slug) ++ "-" ++ natToStr index

/-- The stable identifier as amended: like `claimElementId`, except that
when none of the six signals is available the slug base is the literal
`element-${index}`. -/
def amendedElementId (el : ReconElement) (index : Nat) : String :=
  let slug := slugOf ((claimSlugBase el).getD ("element-" ++ natToStr index))
  typeStr el.type ++ "-" ++ (if slug = "" then "unnamed" else slug) ++ "-" ++ natToStr index

/-- The portion of an identifier after its last hyphen. -/
def afterLastDash (s : String) : String :=
  ⟨(s.data.reverse.takeWhile fun c => c ≠ '-').reverse⟩

/-- Numeric value of a decimal digit character. -/
def dval (c : Char) : Nat :=
  c.toNat - 48

/-- Numeric value of a most-significant-first decimal digit string. -/
def lval (l : List Char) : Nat :=
  l.foldl (fun a c => a * 10 + dval c) 0

/-- Checks that a character list has no whitespace except isolated
single spaces each followed by a non-whitespace character (in
particular no trailing whitespace).  Together with a non-whitespace
first character this characterises the image of `normalizeWhitespace`. -/
def okRun : List Char → Bool
  | [] => true
  | c :: cs =>
    if isJsWs c then
      (c == ' ') &&
        (match cs with
         | [] => false
         | d :: _ => !isJsWs d) &&
        okRun cs
    else okRun cs

/-- An element carrying all six locator signals, with a label text that
is non-empty yet whitespace-only. -/
def elC1bad : ReconElement :=
  { type := .input, tagName := "input", testId := some "t", role := some "textbox",
    labelText := some " ", placeholder := some "p", css := some "c", xpath := some "x" }

/-- An element carrying all six locator signals with substantive
values. -/
def elC1wit : ReconElement :=
  { type := .input, tagName := "input", testId := some "zip", role := some "textbox",
    accessibleName := some "Zip Code", labelText := some "Zip Code",
    placeholder := some "Zip", css := some "input.zip", xpath := some "/html/input" }

/-- An element on which every naming signal of claim C3 is present. -/
def elC3 : ReconElement :=
  { type := .button, tagName := "button", accessibleName := some "A",
    labelText := some "B", ariaLabel := some "C", id := some "D", text := some "E" }

/-- An element with no naming signal at all (even the tag name is the
empty string, which JavaScript treats as absent). -/
def elC5empty : ReconElement :=
  { type := .other, tagName := "" }

/-- A report whose URL has no scheme separator and is rejected by URL
parsing. -/
def reportBad : ReconReport :=
  { url := "not-a-url", scannedAt := "2026-01-18T00:00:00.000Z",
    counts := fun _ => none, elements := [] }

/-- A well-formed empty report on a `www.`-prefixed URL. -/
def reportWww : ReconReport :=
  { url := "https://www.example.com/path", scannedAt := "2026-01-18T00:00:00.000Z",
    counts := fun _ => none, elements := [] }

/-- The model `buildPageModel` produces for `reportWww`. -/
def modelWww : PageModel :=
  { url := "https://www.example.com/path", domain := "example.com",
    scannedAt := "2026-01-18T00:00:00.000Z", title := none, elements := [] }

/-- A two-element report used to witness the identifier properties. -/
def reportW5 : ReconReport :=
  { url := "https://www.example.com/path", scannedAt := "2026-01-18T00:00:00.000Z",
    counts := fun _ => none, elements := [elC1wit, elC5empty] }

/-- The model `buildPageModel` produces for `reportW5`. -/
def modelW5 : PageModel :=
  (buildPageModel reportW5 none).toOption.getD modelWww

/-- A raw scanned element whose node the classifier found natively
disabled. -/
def rawDisabledBtn : RawEl :=
  { tag := "button", disabled := some true, ariaDisabled := some false,
    text := some "Go", css := some "button", xpath := some "/html/button" }

/-- An input-button node with a `value` attribute but no aria-label and
no associated label, plus `alt` and visible text competitors. -/
def nodeValueBtn : DomNode :=
  { tag := "input", attrs := [("type", "submit"), ("value", "Go"), ("alt", "Alt")],
    assocLabel := none, textContent := "Txt" }

/-- A raw element for the input-type refinement witness. -/
def rawSubmit : RawEl :=
  { tag := "input", typeAttr := some "SUBMIT" }

/-- The 81-character string whose normalization has a space in position
80: seventy-nine `a`s, a space, and a `b`. -/
def c10s : String :=
  ⟨List.replicate 79 'a' ++ [' ', 'b']⟩

/-- `safeName`'s output on `c10s`: seventy-nine `a`s and a trailing
space. -/
def c10v : String :=
  ⟨List.replicate 79 'a' ++ [' ']⟩

/-- A default element model used only to read list entries totally. -/
def dummyElem : ElementModel :=
  { id := "", kind := .other, locators := [], flags := {} }

/-! ## Decimal digit strings -/

theorem decCharsAux_irrel : ∀ (f g n : Nat), n < f → n < g → decCharsAux f n = decCharsAux g n := by
  intro f
  induction f with
  | zero => intro g n h _; omega
  | succ f ih =>
    intro g n hf hg
    match g with
    | 0 => omega
    | g + 1 =>
      simp only [decCharsAux]
      by_cases h10 : n < 10
      · simp [h10]
      · simp only [h10, if_false]
        rw [ih g (n / 10) (by omega) (by omega)]

theorem decChars_eq (n : Nat) :
    decChars n = if n < 10 then [decDigit n] else decChars (n / 10) ++ [decDigit (n % 10)] := by
  by_cases h : n < 10
  · simp only [h, if_true]
    show decCharsAux (n + 1) n = _
    simp only [decCharsAux]
    simp [h]
  · simp only [h, if_false]
    show decCharsAux (n + 1) n = decCharsAux (n / 10 + 1) (n / 10) ++ [decDigit (n % 10)]
    conv_lhs => simp only [decCharsAux]
    simp only [h, if_false]
    rw [decCharsAux_irrel n (n / 10 + 1) (n / 10) (by omega) (by omega)]

theorem dval_decDigit : ∀ m, m < 10 → dval (decDigit m) = m := by decide

theorem decDigit_ne_dash : ∀ m, m < 10 → decDigit m ≠ '-' := by decide

theorem lval_append (l : List Char) (c : Char) : lval (l ++ [c]) = lval l * 10 + dval c := by
  simp [lval, List.foldl_append]

theorem lval_decChars : ∀ n, lval (decChars n) = n := by
  intro n
  induction n using Nat.strong_induction_on with
  | _ n ih =>
    rw [decChars_eq]
    by_cases h : n < 10
    · simp [h, lval, dval_decDigit n h]
    · simp only [h, if_false, lval_append]
      rw [ih (n / 10) (by omega), dval_decDigit (n % 10) (by omega)]
      omega

theorem decChars_ne_dash : ∀ n, ∀ c ∈ decChars n, c ≠ '-' := by
  intro n
  induction n using Nat.strong_induction_on with
  | _ n ih =>
    rw [decChars_eq]
    by_cases h : n < 10
    · simp only [h, if_true]
      intro c hc
      simp only [List.mem_singleton] at hc
      subst hc
      exact decDigit_ne_dash n h
    · simp only [h, if_false]
      intro c hc
      rcases List.mem_append.mp hc with h1 | h2
      · exact ih (n / 10) (by omega) c h1
      · simp only [List.mem_singleton] at h2
        subst h2
        exact decDigit_ne_dash (n % 10) (by omega)

theorem natToStr_inj {m n : Nat} (h : natToStr m = natToStr n) : m = n := by
  have hd : decChars m = decChars n := String.ext_iff.mp h
  have hv := congrArg lval hd
  rwa [lval_decChars, lval_decChars] at hv

/-! ## Extracting the index suffix of an identifier -/

theorem takeWhile_append_all {α : Type} {p : α → Bool} :
    ∀ (l1 l2 : List α), (∀ c ∈ l1, p c = true) →
      List.takeWhile p (l1 ++ l2) = l1 ++ List.takeWhile p l2 := by
  intro l1
  induction l1 with
  | nil => simp
  | cons a l ih =>
    intro l2 h
    have ha : p a = true := h a (by simp)
    simp [List.takeWhile_cons, ha, ih l2 fun c hc => h c (by simp [hc])]

theorem afterLastDash_append (s t : String) (h : ∀ c ∈ t.data, c ≠ '-') :
    afterLastDash (s ++ "-" ++ t) = t := by
  have hdata : (s ++ "-" ++ t).data = s.data ++ '-' :: t.data := by
    rw [String.data_append, String.data_append]
    simp [List.append_assoc]
  unfold afterLastDash
  rw [hdata]
  have hrev : (s.data ++ '-' :: t.data).reverse = t.data.reverse ++ '-' :: s.data.reverse := by
    simp [List.reverse_append]
  rw [hrev]
  rw [takeWhile_append_all _ _ (by
    intro c hc
    rw [List.mem_reverse] at hc
    simp [h c hc])]
  simp [List.takeWhile_cons]

theorem afterLastDash_stableElementId (el : ReconElement) (i : Nat) :
    afterLastDash (stableElementId el i) = natToStr i := by
  unfold stableElementId
  have hassoc :
      typeStr el.type ++ "-" ++
          (if slugOf (stableBase el i) = "" then "unnamed" else slugOf (stableBase el i)) ++
          "-" ++ natToStr i =
        (typeStr el.type ++ "-" ++
            (if slugOf (stableBase el i) = "" then "unnamed" else slugOf (stableBase el i))) ++
          "-" ++ natToStr i := by
    simp [String.append_assoc]
  rw [hassoc]
  exact afterLastDash_append _ _ (decChars_ne_dash i)

theorem stableElementId_inj_index {el el' : ReconElement} {i j : Nat}
    (h : stableElementId el i = stableElementId el' j) : i = j := by
  have := congrArg afterLastDash h
  rw [afterLastDash_stableElementId, afterLastDash_stableElementId] at this
  exact natToStr_inj this

/-! ## Whitespace normalization is idempotent away from truncation -/

theorem dropWhile_head_false {α : Type} {p : α → Bool} :
    ∀ (l : List α) (c : α), (l.dropWhile p).head? = some c → p c = false := by
  intro l
  induction l with
  | nil => intro c h; simp [List.dropWhile] at h
  | cons a l ih =>
    intro c h
    by_cases hpa : p a = true
    · rw [List.dropWhile_cons_of_pos hpa] at h
      exact ih c h
    · rw [List.dropWhile_cons_of_neg hpa] at h
      have : a = c := by simpa using h
      subst this
      exact Bool.not_eq_true _ |>.mp hpa

theorem dropWhile_getLast {α : Type} {p : α → Bool} :
    ∀ (l : List α), l.dropWhile p ≠ [] → (l.dropWhile p).getLast? = l.getLast? := by
  intro l
  induction l with
  | nil => intro h; simp [List.dropWhile] at h
  | cons a l ih =>
    intro h
    by_cases hpa : p a = true
    · rw [List.dropWhile_cons_of_pos hpa] at h ⊢
      rw [ih h]
      have hl : l ≠ [] := by
        intro he
        subst he
        simp [List.dropWhile] at h
      cases l with
      | nil => exact absurd rfl hl
      | cons b l' => rw [List.getLast?_cons_cons]
    · rw [List.dropWhile_cons_of_neg hpa]

theorem okRun_tail {a : Char} {l : List Char} (h : okRun (a :: l) = true) : okRun l = true := by
  by_cases hw : isJsWs a
  · simp only [okRun, hw, if_true, Bool.and_eq_true] at h
    exact h.2
  · simpa [okRun, hw] using h

theorem okRun_last : ∀ (l : List Char), okRun l = true → ∀ c, l.getLast? = some c → isJsWs c = false := by
  intro l
  induction l with
  | nil => intro _ c hc; simp at hc
  | cons a l ih =>
    intro h c hc
    cases l with
    | nil =>
      have : a = c := by simpa using hc
      subst this
      by_cases hw : isJsWs a
      · simp [okRun, hw] at h
      · exact Bool.not_eq_true _ |>.mp hw
    | cons b l' =>
      rw [List.getLast?_cons_cons] at hc
      exact ih (okRun_tail h) c hc

theorem collapse_id : ∀ (l : List Char), okRun l = true → collapseWsAux false l = l := by
  intro l
  induction l with
  | nil => intro _; rfl
  | cons a l ih =>
    intro h
    by_cases hw : isJsWs a
    · have h' := h
      simp only [okRun, hw, if_true, Bool.and_eq_true] at h'
      obtain ⟨⟨ha, hd⟩, hok⟩ := h'
      cases l with
      | nil => simp at hd
      | cons d l' =>
        have hae : a = ' ' := by simpa using ha
        have hdw : isJsWs d = false := by simpa using hd
        have hrec := ih hok
        have hX : collapseWsAux false l' = l' := by
          simp only [collapseWsAux, hdw, Bool.false_eq_true, if_false] at hrec
          injection hrec
        subst hae
        simp [collapseWsAux, hw, hdw, hX]
    · have hok : okRun l = true := okRun_tail h
      simp [collapseWsAux, hw, ih hok]

theorem collapse_head_true : ∀ (cs : List Char) (c : Char),
    (collapseWsAux true cs).head? = some c → isJsWs c = false := by
  intro cs
  induction cs with
  | nil => intro c h; simp [collapseWsAux] at h
  | cons d cs ih =>
    intro c h
    by_cases hw : isJsWs d
    · simp only [collapseWsAux, hw, if_true] at h
      exact ih c h
    · simp only [collapseWsAux, hw, Bool.false_eq_true, if_false, List.head?] at h
      have : d = c := by simpa using h
      subst this
      exact Bool.not_eq_true _ |>.mp hw

theorem collapse_true_ne_nil : ∀ (cs : List Char) (c : Char),
    cs.getLast? = some c → isJsWs c = false → collapseWsAux true cs ≠ [] := by
  intro cs
  induction cs with
  | nil => intro c h _; simp at h
  | cons d cs ih =>
    intro c h hc
    by_cases hw : isJsWs d
    · cases cs with
      | nil =>
        have : d = c := by simpa using h
        subst this
        rw [hc] at hw
        exact absurd hw (by simp)
      | cons e cs' =>
        rw [List.getLast?_cons_cons] at h
        simp only [collapseWsAux, hw, if_true]
        exact ih c h hc
    · simp [collapseWsAux, hw]

theorem collapse_ok : ∀ (l : List Char) (b : Bool),
    (∀ c, l.getLast? = some c → isJsWs c = false) → okRun (collapseWsAux b l) = true := by
  intro l
  induction l with
  | nil => intro b _; cases b <;> rfl
  | cons a l ih =>
    intro b hlast
    by_cases hw : isJsWs a
    · have hlne : l ≠ [] := by
        intro he
        subst he
        have := hlast a (by simp)
        rw [this] at hw
        exact absurd hw (by simp)
      have hlast' : ∀ c, l.getLast? = some c → isJsWs c = false := by
        intro c hc
        apply hlast
        cases l with
        | nil => exact absurd rfl hlne
        | cons e l' => rw [List.getLast?_cons_cons]; exact hc
      cases b with
      | true =>
        simp only [collapseWsAux, hw, if_true]
        exact ih true hlast'
      | false =>
        simp only [collapseWsAux, hw, if_true]
        have hout_ne : collapseWsAux true l ≠ [] := by
          obtain ⟨c, hc⟩ : ∃ c, l.getLast? = some c := by
            have := List.getLast?_isSome.mpr hlne
            exact Option.isSome_iff_exists.mp this
          exact collapse_true_ne_nil l c hc (hlast' c hc)
        have hok : okRun (collapseWsAux true l) = true := ih true hlast'
        cases hcol : collapseWsAux true l with
        | nil => exact absurd hcol hout_ne
        | cons d out' =>
          have hdw : isJsWs d = false := collapse_head_true l d (by rw [hcol]; rfl)
          rw [hcol] at hok
          have hok' := okRun_tail hok
          simp [okRun, hdw, hok, hok']
    · have hlast' : ∀ c, l.getLast? = some c → isJsWs c = false := by
        intro c hc
        apply hlast
        cases l with
        | nil => simp at hc
        | cons e l' => rw [List.getLast?_cons_cons]; exact hc
      simp only [collapseWsAux, hw, Bool.false_eq_true, if_false]
      have := ih false hlast'
      simpa [okRun, hw] using this

theorem trim_id : ∀ (l : List Char),
    (∀ c, l.head? = some c → isJsWs c = false) →
    (∀ c, l.getLast? = some c → isJsWs c = false) →
    trimChars l = l := by
  intro l hh hl
  unfold trimChars
  have h1 : l.dropWhile isJsWs = l := by
    cases l with
    | nil => rfl
    | cons a l' => exact List.dropWhile_cons_of_neg (by simp [hh a rfl])
  rw [h1]
  have h2 : l.reverse.dropWhile isJsWs = l.reverse := by
    cases hr : l.reverse with
    | nil => rfl
    | cons a r' =>
      have ha : isJsWs a = false := by
        apply hl
        rw [← List.head?_reverse, hr]
        rfl
      rw [← hr]
      rw [hr]
      exact List.dropWhile_cons_of_neg (by simp [ha])
  rw [h2, List.reverse_reverse]

theorem trim_head : ∀ (l : List Char) (c : Char), (trimChars l).head? = some c → isJsWs c = false := by
  intro l c h
  unfold trimChars at h
  rw [List.head?_reverse] at h
  by_cases hne : (l.dropWhile isJsWs).reverse.dropWhile isJsWs = []
  · rw [hne] at h
    simp at h
  · rw [dropWhile_getLast _ hne, List.getLast?_reverse] at h
    exact dropWhile_head_false l c h

theorem trim_last : ∀ (l : List Char) (c : Char), (trimChars l).getLast? = some c → isJsWs c = false := by
  intro l c h
  unfold trimChars at h
  rw [List.getLast?_reverse] at h
  exact dropWhile_head_false _ c h

theorem norm_idem (s : String) :
    normalizeWhitespace (normalizeWhitespace s) = normalizeWhitespace s := by
  have hout_last : ∀ c, (collapseWsAux false (trimChars s.data)).getLast? = some c →
      isJsWs c = false :=
    okRun_last _ (collapse_ok _ false fun c hc => trim_last s.data c hc)
  have hout_head : ∀ c, (collapseWsAux false (trimChars s.data)).head? = some c →
      isJsWs c = false := by
    intro c hc
    cases ht : trimChars s.data with
    | nil =>
      rw [ht] at hc
      simp [collapseWsAux] at hc
    | cons a t' =>
      have haw : isJsWs a = false := trim_head s.data a (by rw [ht]; rfl)
      rw [ht] at hc
      simp only [collapseWsAux, haw, Bool.false_eq_true, if_false, List.head?] at hc
      have : a = c := by simpa using hc
      subst this
      exact haw
  have hok : okRun (collapseWsAux false (trimChars s.data)) = true :=
    collapse_ok _ false fun c hc => trim_last s.data c hc
  apply String.ext
  show collapseWsAux false (trimChars (collapseWsAux false (trimChars s.data))) = _
  rw [trim_id _ hout_head hout_last, collapse_id _ hok]
  rfl

/-! ## Facts about `safeName` -/

theorem safeName_cases {o : Option String} {v : String} (h : safeName o = some v) :
    ∃ str, o = some str ∧ ¬str = "" ∧ ¬(normalizeWhitespace str).length = 0 ∧
      v = sliceN 80 (normalizeWhitespace str) := by
  cases o with
  | none => simp [safeName] at h
  | some str =>
    by_cases he : str = ""
    · simp [safeName, he] at h
    · by_cases hl : (normalizeWhitespace str).length = 0
      · simp [safeName, he, hl] at h
      · refine ⟨str, rfl, he, hl, ?_⟩
        simp [safeName, he, hl] at h
        exact h.symm

theorem safeName_ne_empty {o : Option String} {v : String} (h : safeName o = some v) :
    v ≠ "" := by
  obtain ⟨str, _, _, hl, hv⟩ := safeName_cases h
  subst hv
  intro hcon
  have hd := congrArg String.data hcon
  simp only [sliceN] at hd
  rcases List.take_eq_nil_iff.mp hd with h80 | hnil
  · exact absurd h80 (by omega)
  · refine hl ?_
    show (normalizeWhitespace str).data.length = 0
    rw [hnil]
    rfl

theorem jsTruthy_iff (o : Option String) :
    jsTruthy o = true ↔ ∃ s, o = some s ∧ (s == "") = false := by
  cases o <;> simp [jsTruthy]

theorem jsTruthy_of_safeName {o : Option String} {v : String} (h : safeName o = some v) :
    jsTruthy o = true := by
  obtain ⟨str, ho, he, _, _⟩ := safeName_cases h
  subst ho
  simp [jsTruthy, he]

theorem jsOrS_safeName_none (o : Option String) : jsOrS (safeName o) none = safeName o := by
  cases h : safeName o with
  | none => rfl
  | some v =>
    have hv := safeName_ne_empty h
    simp [jsOrS, jsTruthy, hv]

theorem specStep (o : Option String) (rest : List (Option String)) :
    ((o :: rest).filterMap safeName).head? =
      jsOrS (safeName o) ((rest.filterMap safeName).head?) := by
  cases h : safeName o with
  | none => simp [List.filterMap_cons, h, jsOrS, jsTruthy]
  | some v =>
    have hv := safeName_ne_empty h
    simp [List.filterMap_cons, h, jsOrS, jsTruthy, hv]

/-! ## Claim C10: idempotence of the name helper -/

/-- Claim C10, as stated, is false on the code: on the 81-character
string `c10s` (whose normalized form has a space in position 80),
`safeName` yields `c10v`, but `safeName` applied to `c10v` trims its
trailing space and does not yield `c10v` again. -/
theorem claim10_counterexample :
    safeName (some c10s) = some c10v ∧ safeName (some c10v) ≠ some c10v := by
  decide

/-- Claim C10 (amended): the name helper is idempotent on every string
whose whitespace-normalized form is at most 80 characters, i.e. whenever
the truncation step does not cut the string: if `safeName` yields `v`,
then `safeName` on `v` yields `v` again. -/
theorem claim10_idempotent_amended :
    ∀ (s v : String), (normalizeWhitespace s).length ≤ 80 →
      safeName (some s) = some v → safeName (some v) = some v := by
  intro s v hlen h
  by_cases he : s = ""
  · simp [safeName, he] at h
  · by_cases hl : (normalizeWhitespace s).length = 0
    · simp [safeName, he, hl] at h
    · have hv : v = sliceN 80 (normalizeWhitespace s) := by
        simp [safeName, he, hl] at h
        exact h.symm
      have hvn : v = normalizeWhitespace s := by
        rw [hv]
        apply String.ext
        show List.take 80 (normalizeWhitespace s).data = _
        exact List.take_of_length_le hlen
      have hvne : ¬v = "" := by
        intro hcon
        rw [hvn] at hcon
        have hd := congrArg String.data hcon
        refine hl ?_
        show (normalizeWhitespace s).data.length = 0
        rw [hd]
        rfl
      have hnv : normalizeWhitespace v = v := by
        rw [hvn]
        exact norm_idem s
      have hvl0 : ¬(normalizeWhitespace v).length = 0 := by
        rw [hnv, hvn]
        exact hl
      have hv0 : ¬v.length = 0 := by
        rw [← hnv]
        exact hvl0
      have hslice : sliceN 80 v = v := by
        apply String.ext
        show List.take 80 v.data = v.data
        apply List.take_of_length_le
        rw [hvn]
        exact hlen
      simp [safeName, hvne, hvl0, hv0, hnv, hslice]

/-- Witness for claim C10 (amended) at `s = "a  b"`, `v = "a b"`. -/
theorem claim10_witness : safeName (some "a b") = some "a b" :=
  claim10_idempotent_amended "a  b" "a b" (by decide) (by decide)

/-! ## Claim C3: name precedence -/

/-- Claim C3: for every report element the display name is the first of
accessible name, label text, aria-label, name attribute, id attribute,
visible text whose normalized-and-truncated value is present
(`specName`), and on an element carrying accessibleName "A",
labelText "B", ariaLabel "C", id "D", text "E" simultaneously the
resolved name is "A". -/
theorem claim3_name_precedence :
    (∀ el : ReconElement, buildName el = specName el) ∧ buildName elC3 = some "A" := by
  constructor
  · intro el
    unfold buildName specName
    rw [specStep, specStep, specStep, specStep, specStep, specStep]
    simp [jsOrS_safeName_none]
  · decide

/-! ## Claim C1: locator hint ordering -/

/-- Claim C1, as stated, is false on the code: `elC1bad` carries all six
locator signals present and non-empty (its label text is the one-space
string), yet the emitted locators are five hints — the label hint is
dropped because its normalized value is empty. -/
theorem claim1_counterexample :
    (jsTruthy elC1bad.testId = true ∧ jsTruthy elC1bad.role = true ∧
        jsTruthy elC1bad.labelText = true ∧ jsTruthy elC1bad.placeholder = true ∧
        jsTruthy elC1bad.css = true ∧ jsTruthy elC1bad.xpath = true) ∧
      (buildLocators elC1bad).map (fun l => l.strategy) ≠
        [HintStrategy.testId, HintStrategy.role, HintStrategy.label,
         HintStrategy.placeholder, HintStrategy.css, HintStrategy.xpath] := by
  decide

/-- Claim C1 (amended): for every element whose test-id, role,
placeholder, CSS selector and XPath are present and non-empty and whose
label text is non-empty after whitespace normalization, `buildLocators`
emits exactly six hints in the order testId, role, label, placeholder,
css, xpath. -/
theorem claim1_locator_order (el : ReconElement)
    (h1 : jsTruthy el.testId = true) (h2 : jsTruthy el.role = true)
    (h3 : safeName el.labelText ≠ none)
    (h4 : jsTruthy el.placeholder = true) (h5 : jsTruthy el.css = true)
    (h6 : jsTruthy el.xpath = true) :
    buildLocators el =
      [{ strategy := .testId, value := el.testId },
       { strategy := .role, role := el.role, name := safeName el.accessibleName },
       { strategy := .label, value := safeName el.labelText },
       { strategy := .placeholder, value := el.placeholder },
       { strategy := .css, value := el.css },
       { strategy := .xpath, value := el.xpath }] := by
  obtain ⟨v, hv⟩ : ∃ v, safeName el.labelText = some v := by
    cases hs : safeName el.labelText
    · exact absurd hs h3
    · exact ⟨_, rfl⟩
  have hlt : jsTruthy el.labelText = true := jsTruthy_of_safeName hv
  have hvne : (v == "") = false := by
    simpa using safeName_ne_empty hv
  obtain ⟨t1, he1, hn1⟩ := (jsTruthy_iff el.testId).mp h1
  obtain ⟨t2, he2, hn2⟩ := (jsTruthy_iff el.role).mp h2
  obtain ⟨t3, he3, hn3⟩ := (jsTruthy_iff el.labelText).mp hlt
  obtain ⟨t4, he4, hn4⟩ := (jsTruthy_iff el.placeholder).mp h4
  obtain ⟨t5, he5, hn5⟩ := (jsTruthy_iff el.css).mp h5
  obtain ⟨t6, he6, hn6⟩ := (jsTruthy_iff el.xpath).mp h6
  rw [he3] at hv
  simp only [buildLocators]
  rw [he1, he2, he3, he4, he5, he6]
  simp [jsTruthy, hn1, hn2, hn3, hn4, hn5, hn6, hv, hvne, List.filter]

/-- Witness for claim C1 (amended) at the fully-populated element
`elC1wit`. -/
theorem claim1_witness :
    buildLocators elC1wit =
      [{ strategy := .testId, value := elC1wit.testId },
       { strategy := .role, role := elC1wit.role, name := safeName elC1wit.accessibleName },
       { strategy := .label, value := safeName elC1wit.labelText },
       { strategy := .placeholder, value := elC1wit.placeholder },
       { strategy := .css, value := elC1wit.css },
       { strategy := .xpath, value := elC1wit.xpath }] :=
  claim1_locator_order elC1wit (by decide) (by decide) (by decide) (by decide)
    (by decide) (by decide)

/-! ## Claim C2: count aggregation invariant -/

theorem countType_cons (e : ReconElement) (l : List ReconElement) (t : ReconElementType) :
    countType (e :: l) t = (if e.type = t then 1 else 0) + countType l t := by
  by_cases h : e.type = t <;> simp [countType, List.filter_cons, h, Nat.add_comm]

theorem foldl_bump (l : List ReconElement) :
    ∀ (acc : ReconElementType → Option Nat) (t : ReconElementType),
      ((l.foldl (fun a e => bumpCount a e.type) acc) t).getD 0 =
        (acc t).getD 0 + countType l t := by
  induction l with
  | nil =>
    intro acc t
    simp [countType]
  | cons e l ih =>
    intro acc t
    simp only [List.foldl_cons]
    rw [ih, countType_cons]
    by_cases h : e.type = t
    · subst h
      simp [bumpCount]
      omega
    · have h' : ¬t = e.type := fun hh => h hh.symm
      simp [bumpCount, h, h']

theorem sum_expand (m : List ReconElement) :
    (allTypes.map (countType m)).sum =
      countType m .button + countType m .link + countType m .input +
        countType m .select + countType m .textarea + countType m .other := by
  simp [allTypes]
  omega

theorem sum_countType : ∀ (l : List ReconElement),
    (allTypes.map (countType l)).sum = l.length := by
  intro l
  induction l with
  | nil => simp [allTypes, countType]
  | cons e l ih =>
    rw [sum_expand] at ih ⊢
    rw [countType_cons, countType_cons, countType_cons, countType_cons, countType_cons,
      countType_cons]
    cases he : e.type <;> simp [he] <;> omega

/-- Claim C2: for every element list, the `counts` record produced by
the scan aggregation has all six semantic-type keys present (zero-filled
when absent from the tallies) and its values sum to the number of
elements. -/
theorem claim2_counts_invariant :
    ∀ (l : List ReconElement),
      (∀ t, scanCounts l t ≠ none) ∧
        (allTypes.map fun t => (scanCounts l t).getD 0).sum = l.length := by
  intro l
  constructor
  · intro t
    simp [scanCounts]
  · have h : ∀ t, (scanCounts l t).getD 0 = countType l t := by
      intro t
      show ((rawCounts l t).getD 0 : Nat) = countType l t
      unfold rawCounts
      simpa using foldl_bump l (fun _ => none) t
    simp only [h]
    exact sum_countType l

/-- Witness for claim C2 on a concrete two-element list. -/
theorem claim2_witness :
    scanCounts [elC1wit, elC5empty] ReconElementType.button ≠ none ∧
      (allTypes.map fun t => (scanCounts [elC1wit, elC5empty] t).getD 0).sum = 2 :=
  ⟨(claim2_counts_invariant [elC1wit, elC5empty]).1 ReconElementType.button,
   (claim2_counts_invariant [elC1wit, elC5empty]).2⟩

/-! ## Claim C4: the only failure is a malformed URL -/

theorem mapWithIndex_length {α β : Type} (f : Nat → α → β) :
    ∀ (k : Nat) (l : List α), (mapWithIndex f k l).length = l.length := by
  intro k l
  induction l generalizing k with
  | nil => rfl
  | cons a as ih => simp [mapWithIndex, ih]

theorem mapWithIndex_get? {α β : Type} (f : Nat → α → β) :
    ∀ (l : List α) (k i : Nat),
      (mapWithIndex f k l).get? i = (l.get? i).map (f (k + i)) := by
  intro l
  induction l with
  | nil =>
    intro k i
    simp [mapWithIndex]
  | cons a as ih =>
    intro k i
    cases i with
    | zero => simp [mapWithIndex]
    | succ n =>
      simp only [mapWithIndex, List.get?]
      rw [ih (k + 1) n, show k + 1 + n = k + (n + 1) by omega]

theorem buildPageModel_elements {r : ReconReport} {t : Option String} {m : PageModel}
    (hm : buildPageModel r t = Except.ok m) :
    m.elements = mapWithIndex buildElement 0 r.elements := by
  unfold buildPageModel domainFromUrl at hm
  cases h : urlHostname r.url
  · rw [h] at hm
    simp at hm
  · rw [h] at hm
    simp at hm
    rw [← hm]

/-- Claim C4: `buildPageModel` fails exactly when the report URL is
malformed (no partial model is produced, the error being the entire
result), and on every well-formed URL it returns a complete model with
one model element per report element; all optional signals are total
reads that degrade to absence. -/
theorem claim4_error_iff :
    (∀ (r : ReconReport) (t : Option String),
        (∃ e, buildPageModel r t = Except.error e) ↔ urlHostname r.url = none) ∧
      ∀ (r : ReconReport) (t : Option String) (m : PageModel),
        buildPageModel r t = Except.ok m → m.elements.length = r.elements.length := by
  constructor
  · intro r t
    unfold buildPageModel domainFromUrl
    cases h : urlHostname r.url <;> simp
  · intro r t m hm
    rw [buildPageModel_elements hm]
    exact mapWithIndex_length buildElement 0 r.elements

/-- Witness for claim C4: the scheme-less URL is rejected with an
error, and the well-formed report produces a model with as many
elements as the report. -/
theorem claim4_witness :
    (∃ e, buildPageModel reportBad none = Except.error e) ∧
      modelWww.elements.length = reportWww.elements.length :=
  ⟨(claim4_error_iff.1 reportBad none).mpr (by decide),
   claim4_error_iff.2 reportWww none modelWww (by rfl)⟩

/-! ## Claim C9: domain derivation -/

/-- Claim C9: every successfully built model's domain is the URL
hostname with a single literal leading `www.` stripped;
`https://www.example.com/path` yields `example.com` and
`https://shop.example.co.uk` yields `shop.example.co.uk`. -/
theorem claim9_domain :
    (∀ (r : ReconReport) (t : Option String) (m : PageModel),
        buildPageModel r t = Except.ok m →
          m.domain = stripWww ((urlHostname r.url).getD "")) ∧
      domainFromUrl "https://www.example.com/path" = Except.ok "example.com" ∧
        domainFromUrl "https://shop.example.co.uk" = Except.ok "shop.example.co.uk" ∧
          ∀ s : String, stripWww ("www." ++ s) = s := by
  refine ⟨?_, by rfl, by rfl, ?_⟩
  · intro r t m hm
    unfold buildPageModel domainFromUrl at hm
    cases h : urlHostname r.url
    · rw [h] at hm
      simp at hm
    · rw [h] at hm
      simp at hm
      rw [← hm]
      simp
  · intro s
    unfold stripWww
    have hd : ("www." ++ s).data = 'w' :: 'w' :: 'w' :: '.' :: s.data := by
      rw [String.data_append]
      rfl
    rw [hd]
    rfl

/-- Witness for claim C9 at the `www.`-prefixed report. -/
theorem claim9_witness : modelWww.domain = stripWww ((urlHostname reportWww.url).getD "") :=
  claim9_domain.1 reportWww none modelWww (by rfl)

/-! ## Claim C5: stable identifiers -/

theorem firstNonempty_cons (o : Option String) (rest : List (Option String)) :
    firstNonempty (o :: rest) = jsOrS o (firstNonempty rest) := by
  unfold firstNonempty jsOrS
  cases h : jsTruthy o <;> simp [List.find?_cons, h]

theorem jsOrS_pos {o : Option String} (h : jsTruthy o = true) (b : Option String) :
    jsOrS o b = o := by
  simp [jsOrS, h]

theorem jsOrS_neg {o : Option String} (h : jsTruthy o = false) (b : Option String) :
    jsOrS o b = b := by
  simp [jsOrS, h]

theorem chain_eq : ∀ (cands : List (Option String)) (fb : String),
    (cands.foldr jsOrS (some fb)).getD "" = (firstNonempty cands).getD fb := by
  intro cands
  induction cands with
  | nil =>
    intro fb
    simp [firstNonempty]
  | cons o rest ih =>
    intro fb
    rw [firstNonempty_cons, List.foldr_cons]
    cases ho : jsTruthy o
    · rw [jsOrS_neg ho, jsOrS_neg ho]
      exact ih fb
    · obtain ⟨s, hs, _⟩ := (jsTruthy_iff o).mp ho
      rw [jsOrS_pos ho, jsOrS_pos ho, hs]
      simp

theorem stableBase_eq (el : ReconElement) (i : Nat) :
    stableBase el i = (claimSlugBase el).getD ("element-" ++ natToStr i) :=
  chain_eq [el.testId, el.id, el.name, el.ariaLabel, el.text, some el.tagName]
    ("element-" ++ natToStr i)

theorem stableElementId_eq_amended (el : ReconElement) (i : Nat) :
    stableElementId el i = amendedElementId el i := by
  unfold stableElementId amendedElementId
  rw [stableBase_eq]

/-- Claim C5, as stated, is false on the code: on an element with no
test-id, DOM id, name, aria-label, text, and an empty tag name, the
identifier uses the fallback base `element-0` rather than the claimed
`"unnamed"` substitution. -/
theorem claim5_counterexample :
    stableElementId elC5empty 0 ≠ claimElementId elC5empty 0 ∧
      stableElementId elC5empty 0 = "other-element-0-0" ∧
      claimElementId elC5empty 0 = "other-unnamed-0" := by
  decide

/-- Claim C5 (amended): in every built model, the i-th element's
identifier is `${type}-${slug}-${i}` with the slug drawn from the first
available of test-id, DOM id, name, aria-label, text, tag name — and
from the literal `element-${i}` when none is available — with
`"unnamed"` substituted for an empty slug; identifiers are pairwise
distinct within one model because the position is appended. -/
theorem claim5_stable_id :
    ∀ (r : ReconReport) (t : Option String) (m : PageModel),
      buildPageModel r t = Except.ok m →
        (∀ (i : Nat) (el : ReconElement) (em : ElementModel),
            r.elements.get? i = some el → m.elements.get? i = some em →
              em.id = amendedElementId el i) ∧
          ∀ (i j : Nat) (emi emj : ElementModel), i ≠ j →
            m.elements.get? i = some emi → m.elements.get? j = some emj →
              emi.id ≠ emj.id := by
  intro r t m hm
  have helems : m.elements = mapWithIndex buildElement 0 r.elements :=
    buildPageModel_elements hm
  have hget : ∀ (i : Nat), m.elements.get? i = (r.elements.get? i).map (buildElement i) := by
    intro i
    rw [helems, mapWithIndex_get? buildElement r.elements 0 i]
    simp
  constructor
  · intro i el em hrel hmel
    rw [hget i, hrel] at hmel
    have hb : some (buildElement i el) = some em := hmel
    injection hb with hb
    rw [← hb]
    show stableElementId el i = _
    exact stableElementId_eq_amended el i
  · intro i j emi emj hij hmi hmj
    rw [hget i] at hmi
    rw [hget j] at hmj
    cases hri : r.elements.get? i with
    | none => rw [hri] at hmi; exact absurd hmi (by simp)
    | some eli =>
      cases hrj : r.elements.get? j with
      | none => rw [hrj] at hmj; exact absurd hmj (by simp)
      | some elj =>
        rw [hri] at hmi
        rw [hrj] at hmj
        have hbi : some (buildElement i eli) = some emi := hmi
        have hbj : some (buildElement j elj) = some emj := hmj
        injection hbi with hbi
        injection hbj with hbj
        rw [← hbi, ← hbj]
        show stableElementId eli i ≠ stableElementId elj j
        intro hcon
        exact hij (stableElementId_inj_index hcon)

/-- Witness for claim C5 (amended) on the two-element report
`reportW5`. -/
theorem claim5_witness :
    ((modelW5.elements.get? 0).getD dummyElem).id = amendedElementId elC1wit 0 ∧
      ((modelW5.elements.get? 0).getD dummyElem).id ≠
        ((modelW5.elements.get? 1).getD dummyElem).id := by
  have h := claim5_stable_id reportW5 none modelW5 (by rfl)
  exact ⟨h.1 0 elC1wit _ (by rfl) (by rfl), h.2 0 1 _ _ (by decide) (by rfl) (by rfl)⟩

/-! ## Claim C6: accessible-name precedence -/

theorem jsTruthy_none : jsTruthy none = false := rfl

theorem firstNonempty_nil : firstNonempty ([] : List (Option String)) = none := rfl

theorem jsOrS_getText (n : DomNode) : jsOrS (getText n) none = getText n := by
  unfold getText
  by_cases h : normalizeWhitespace n.textContent = ""
  · simp [h, jsOrS, jsTruthy]
  · have hne : sliceN 200 (normalizeWhitespace n.textContent) ≠ "" := by
      intro hcon
      have hd := congrArg String.data hcon
      simp only [sliceN] at hd
      rcases List.take_eq_nil_iff.mp hd with h200 | hnil2
      · omega
      · exact h (String.ext hnil2)
    simp [h, jsOrS, jsTruthy, hne]

theorem getText_ite (n : DomNode) :
    (if jsTruthy (getText n) = true then getText n else none) = getText n := by
  have h := jsOrS_getText n
  simpa [jsOrS] using h

/-- Claim C6: the scanner's accessible name is the first non-empty of
aria-label, associated label text, the value attribute (for
submit/button/reset inputs only), alt, and normalized visible text
(`specAccName`); in particular an input-submit node with no aria-label
and no label but value "Go" resolves to "Go" over alt and text. -/
theorem claim6_accessible_name :
    (∀ n : DomNode, accessibleName n = specAccName n) ∧
      accessibleName nodeValueBtn = some "Go" := by
  refine ⟨?_, by decide⟩
  intro n
  unfold accessibleName specAccName
  rw [firstNonempty_cons, firstNonempty_cons, firstNonempty_cons, firstNonempty_cons,
    firstNonempty_cons, firstNonempty_nil]
  cases ha : jsTruthy (getAttr n "aria-label") <;>
    cases hl : jsTruthy (findAssociatedLabelText n) <;>
      cases hv : jsTruthy (getAttr n "value") <;>
        cases halt : jsTruthy (getAttr n "alt") <;>
          by_cases hin : strLower n.tag = "input" <;>
            by_cases h1 : strLower ((getAttr n "type").getD "text") = "submit" <;>
              by_cases h2 : strLower ((getAttr n "type").getD "text") = "button" <;>
                by_cases h3 : strLower ((getAttr n "type").getD "text") = "reset" <;>
                  simp [jsOrS, ha, hl, hv, halt, hin, h1, h2, h3, jsTruthy_none,
                    getText_ite] <;>
                    (obtain ⟨s, hs, _⟩ := (jsTruthy_iff (getAttr n "value")).mp hv
                     simp [hs])

/-! ## Claim C7: the input-type refinement of `normalizeType` -/

/-- Claim C7: when the ARIA role is absent or not interactive and the
tag is `input`, `normalizeType` returns `button` exactly when the type
attribute is (case-insensitively) button, submit or reset, and `input`
otherwise. -/
theorem claim7_input_refinement :
    ∀ raw : RawEl,
      (∀ s, raw.role = some s → strLower s ∉ INTERACTIVE_ROLES) →
      strLower raw.tag = "input" →
      normalizeType raw =
        if raw.typeAttr.map strLower = some "button" ∨
            raw.typeAttr.map strLower = some "submit" ∨
            raw.typeAttr.map strLower = some "reset" then
          ReconElementType.button
        else ReconElementType.input := by
  intro raw hrole htag
  unfold normalizeType
  cases hr : raw.role with
  | none =>
    simp only [htag]
    simp
    exact if_congr or_assoc rfl rfl
  | some s =>
    have hmem := hrole s hr
    simp only [htag]
    simp [hmem]
    exact if_congr or_assoc rfl rfl

/-- Witness for claim C7 on a role-less input with type `SUBMIT`. -/
theorem claim7_witness : normalizeType rawSubmit = ReconElementType.button := by
  have h := claim7_input_refinement rawSubmit (by intro s hs; cases hs) (by decide)
  rw [h]
  decide

/-! ## Claim C8: the disabled flags are dropped by the conversion -/

/-- Claim C8 describes the spec's intent, but the code drops the flags:
the classifier computes `disabled = true` for `rawDisabledBtn`, yet the
`RawEl → ReconElement` conversion omits both disabled fields, so the
report element and the model flags carry `undefined` instead. -/
theorem claim8_flags_dropped :
    rawDisabledBtn.disabled = some true ∧
      (rawToRecon rawDisabledBtn).disabled = none ∧
      (rawToRecon rawDisabledBtn).ariaDisabled = none ∧
      (buildElement 0 (rawToRecon rawDisabledBtn)).flags =
        { disabled := none, ariaDisabled := none } := by
  decide

end UIRecon
